import Mathlib

/-!
Shallow embedding of the logohunter repository (src/src/logo_hunter) for
checking its natural-language specification.

Python numeric values (ints and floats) are modelled by exact rationals;
float literals such as 0.67 denote the decimal rational 67/100.  Machine
float rounding error is far below every threshold compared here, so the
rational model is observationally faithful on realistic inputs.
-/

/-- Result of calling one Python rule function on a fixed candidate context
(scoring.py, the value "rule_applies" at line 128).  A Python bool is kept
apart from numbers because "isinstance(rule_applies, bool)" is tested first;
"exn" marks a call that raised (caught by the engine); "other" is any
non-bool non-numeric return such as None. -/
inductive RuleResult where
  | bool (b : Bool)
  | num (q : ℚ)
  | exn
  | other
deriving DecidableEq, Repr

/-- Python "int(q)": truncation toward zero. -/
def pyInt (q : ℚ) : ℤ :=
  if 0 ≤ q then ⌊q⌋ else ⌈q⌉

/-- Python "round(q)" on a float value: round half to even. -/
def pyRound (q : ℚ) : ℤ :=
  if q - ⌊q⌋ = 1/2 then (if 2 ∣ ⌊q⌋ then ⌊q⌋ else ⌊q⌋ + 1) else round q

/-- One loaded rule as seen by one calculate_score call: the value the rule
function returned on this candidate context, the rule label, and the
configured weight (scoring.py line 125, the triple (rule_func, rule_label,
rule_value) with rule_func already applied to the fixed context). -/
structure LoadedRule where
  result : RuleResult
  label : String
  value : ℤ
deriving DecidableEq, Repr

/-- The contribution computation of ScoringEngine.calculate_score
(scoring.py lines 141-146): bool true gives the weight, bool false gives 0,
a numeric value v gives int(rule_value * v) (Python int truncates toward
zero), anything else gives 0.  A rule that raised is caught by the
try/except and skipped, which is observationally a 0 contribution. -/
def scoreContribution (value : ℤ) : RuleResult → ℤ
  | .bool b => if b then value else 0
  | .num q => pyInt ((value : ℚ) * q)
  | .exn => 0
  | .other => 0

/-- ScoringEngine.calculate_score (scoring.py lines 122-159): fold over the
rules in order, adding each nonzero contribution to the total and appending
(label, contribution) to the details list. -/
def calculate_score (rules : List LoadedRule) : ℤ × List (String × ℤ) :=
  rules.foldl
    (fun acc r =>
      let c := scoreContribution r.value r.result
      if c ≠ 0 then (acc.1 + c, acc.2 ++ [(r.label, c)]) else acc)
    (0, [])

/-- Candidate context handed to every rule function
(scoring.py lines 103-113 plus the svg_content kwarg from hunter.py). -/
structure CandidateCtx where
  imgPresent : Bool
  width : ℕ
  height : ℕ
  url : String
  alt_text : String
  css_classes : String
  element_id : String
  parent_classes : List String
  svg_content : String
deriving DecidableEq, Repr

/-- rules/dimensions/penalty.py, very_small_images. -/
def very_small_images (c : CandidateCtx) : RuleResult :=
  if c.width = 0 ∨ c.height = 0 then .num 0
  else
    let maxDimension := max c.width c.height
    if maxDimension < 16 then .num 1
    else if maxDimension < 24 then .num (67/100)
    else if maxDimension < 32 then .num (33/100)
    else .bool false

/-- rules/dimensions/penalty.py, extremely_wide_aspect_ratio. -/
def extremely_wide_aspect_ratio (c : CandidateCtx) : RuleResult :=
  if c.width = 0 ∨ c.height = 0 then .num 0
  else
    let ratio : ℚ := (max c.width c.height : ℚ) / (min c.width c.height : ℚ)
    if 8 < ratio then .num 1
    else if 6 < ratio then .num (3/4)
    else if 5 < ratio then .num (1/2)
    else .bool false

/-- The social media preset list of rules/dimensions/penalty.py. -/
def socialDimensions : List (ℕ × ℕ) :=
  [(1200, 630), (1200, 628), (1024, 512), (1200, 675),
   (1080, 1080), (1080, 1920), (1200, 1200)]

/-- rules/dimensions/penalty.py, social_media_dimensions.  The Python for
loop returns at the first preset within 5 percent tolerance; the returned
value depends only on width and height, so testing whether any preset
matches is equivalent. -/
def social_media_dimensions (c : CandidateCtx) : RuleResult :=
  if c.width = 0 ∨ c.height = 0 then .num 0
  else if socialDimensions.any (fun p =>
      |(c.width : ℚ) - (p.1 : ℚ)| ≤ (p.1 : ℚ) * (5/100) ∧
      |(c.height : ℚ) - (p.2 : ℚ)| ≤ (p.2 : ℚ) * (5/100)) then
    let ratio : ℚ := (max c.width c.height : ℚ) / (min c.width c.height : ℚ)
    if 3/2 < ratio then .num 1 else .num (33/100)
  else .bool false

/-- The banner preset list of rules/dimensions/penalty.py. -/
def bannerDimensions : List (ℕ × ℕ) :=
  [(728, 90), (300, 250), (336, 280), (320, 50), (468, 60),
   (234, 60), (120, 600), (160, 600), (300, 600)]

/-- rules/dimensions/penalty.py, banner_dimensions rule. -/
def banner_dimensions (c : CandidateCtx) : RuleResult :=
  if c.width = 0 ∨ c.height = 0 then .num 0
  else if bannerDimensions.any (fun p =>
      |(c.width : ℚ) - (p.1 : ℚ)| ≤ max 5 ((p.1 : ℚ) * (1/10)) ∧
      |(c.height : ℚ) - (p.2 : ℚ)| ≤ max 5 ((p.2 : ℚ) * (1/10))) then
    .bool true
  else .bool false

/-- The inner is_odd_dimension of rules/dimensions/penalty.py: n above 100
with no divisor in range(2, int(n ** 0.5) + 1); int(n ** 0.5) is modelled by
the exact integer square root. -/
def isOddDimension (n : ℕ) : Bool :=
  if 100 < n then
    (List.range' 2 (Nat.sqrt n - 1)).all (fun i => ¬ (i ∣ n))
  else false

/-- rules/dimensions/penalty.py, odd_dimensions. -/
def odd_dimensions (c : CandidateCtx) : RuleResult :=
  if c.width = 0 ∨ c.height = 0 then .num 0
  else
    let p1 : ℚ := if isOddDimension c.width ∨ isOddDimension c.height then 1/2 else 0
    let p2 : ℚ :=
      if c.width = 150 ∧ c.height = 150 then 1
      else if (c.width, c.height) ∈ [(120, 120), (240, 240), (360, 360)] then 3/4
      else 0
    let penalty := p1 + p2
    if 0 < penalty then .num penalty else .bool false

/-- The standard icon size list of logohunter/rules/dimensions/bonus.py. -/
def standardSizes : List (ℕ × ℕ) :=
  [(128, 128), (152, 152), (167, 167), (180, 180),
   (192, 192), (256, 256), (512, 512)]

/-- logohunter/rules/dimensions/bonus.py, apple_touch_icon_sizes. -/
def apple_touch_icon_sizes (c : CandidateCtx) : RuleResult :=
  if c.width = 0 ∨ c.height = 0 then .num 0
  else if (c.width, c.height) ∈ standardSizes then .num 1
  else if standardSizes.any (fun p =>
      |(c.width : ℤ) - (p.1 : ℤ)| ≤ 2 ∧ |(c.height : ℤ) - (p.2 : ℤ)| ≤ 2) then
    .num (4/5)
  else .num 0

/-- The Icon named tuple of hunter.py (lines 21-33). -/
structure Icon where
  url : String
  width : ℕ
  height : ℕ
  format : String
  alt_text : String := ""
  css_classes : String := ""
  element_id : String := ""
  parent_classes : List String := []
  score : ℤ := 0
  rule_details : List (String × ℤ) := []
deriving DecidableEq, Repr

/-- One step of building the Python dict comprehension
left brace icon.url: icon for icon in all_icons right brace of hunter.py
line 648: an already-present key keeps its position and gets the new value,
a new key is appended. -/
def dictInsert (m : List Icon) (x : Icon) : List Icon :=
  if m.any (fun y => y.url = x.url) then
    m.map (fun y => if y.url = x.url then x else y)
  else m ++ [x]

/-- hunter.py line 648, list(dict-by-url.values()): deduplicate candidates
by url, keeping first-discovery key order and last-discovery values. -/
def dedupByUrl (icons : List Icon) : List Icon :=
  icons.foldl dictInsert []

/-- Stable descending insertion by an integer key: the new element goes
before the first element whose key is less than or equal to its own, so
earlier elements win ties.  This is the stable sort that Python
sorted(key=..., reverse=True) performs. -/
def insertKeyDesc (key : Icon → ℤ) (x : Icon) : List Icon → List Icon
  | [] => [x]
  | y :: ys => if key y ≤ key x then x :: y :: ys else y :: insertKeyDesc key x ys

/-- hunter.py line 672, sorted(scored_icons, key=score, reverse=True):
stable sort, highest score first. -/
def sortByScoreDesc (icons : List Icon) : List Icon :=
  icons.foldr (insertKeyDesc (fun i => i.score)) []

/-- hunter.py lines 657-668: rebuild the candidate with the computed score
and rule details; every other field is copied unchanged.  scoreOf stands
for the per-candidate result of _calculate_score_with_rules. -/
def rescoreIcon (scoreOf : Icon → ℤ × List (String × ℤ)) (i : Icon) : Icon :=
  { i with score := (scoreOf i).1, rule_details := (scoreOf i).2 }

/-- The pure tail of LogoHunter.find_logo_urls (hunter.py lines 647-678),
parameterized by the list of discovered candidates in extraction order and
by the scoring oracle: deduplicate by url, score each survivor, sort by
score descending, return the urls. -/
def find_logo_urls (scoreOf : Icon → ℤ × List (String × ℤ))
    (all_icons : List Icon) : List String :=
  (sortByScoreDesc ((dedupByUrl all_icons).map (rescoreIcon scoreOf))).map
    (fun i => i.url)

/-- Value of a digit string under Python int(), given only digit chars. -/
def natOfDigits (cs : List Char) : ℕ :=
  cs.foldl (fun n c => n * 10 + (c.toNat - 48)) 0

/-- Character-level string split keeping empty pieces, the semantics of
both Python str.split(" ") with an explicit separator and re.split on a
single-character class.  Defined on char lists so that it reduces in the
kernel. -/
def splitOnPred (p : Char → Bool) : List Char → List (List Char)
  | [] => [[]]
  | c :: cs =>
    if p c then [] :: splitOnPred p cs
    else
      match splitOnPred p cs with
      | [] => [[c]]
      | g :: gs => (c :: g) :: gs

/-- Python s.split(sep) for a one-character separator. -/
def pySplit (s : String) (p : Char → Bool) : List String :=
  (splitOnPred p s.toList).map (fun cs => ⟨cs⟩)

/-- Python s.lower(), modelled characterwise. -/
def lowerStr (s : String) : String :=
  ⟨s.toList.map Char.toLower⟩

/-- Python s.upper(), modelled characterwise. -/
def upperStr (s : String) : String :=
  ⟨s.toList.map Char.toUpper⟩

/-- re.split("[x×]", token), keeping empty pieces. -/
def splitXTimes (s : String) : List String :=
  pySplit s (fun c => c = 'x' || c = '×')

/-- The size_key closure of LogoHunter._extract_dimensions (hunter.py
lines 263-272): split the token on x or the multiplication sign; with
exactly two halves, multiply the values of the digit characters of each
half; an empty digit string raises ValueError, caught as key 0.  Python
str.isdigit is modelled by the ASCII digit test, exact on ASCII input. -/
def size_key (s : String) : ℕ :=
  match splitXTimes s with
  | [a, b] =>
    let wd := a.toList.filter Char.isDigit
    let hd := b.toList.filter Char.isDigit
    if wd ≠ [] ∧ hd ≠ [] then natOfDigits wd * natOfDigits hd else 0
  | _ => 0

/-- Stable descending insertion of a token by size key (same scheme as
insertKeyDesc, at list-of-string type). -/
def insertKeyDescStr (key : String → ℕ) (x : String) :
    List String → List String
  | [] => [x]
  | y :: ys =>
      if key y ≤ key x then x :: y :: ys else y :: insertKeyDescStr key x ys

/-- Python list.sort(key=..., reverse=True) on the token list: stable,
largest key first (hunter.py line 274). -/
def sortKeyDescStr (key : String → ℕ) (l : List String) : List String :=
  l.foldr (insertKeyDescStr key) []

/-- One attempted match of the pattern (\d{2,4})x(\d{2,4}) at the start of
cs with a width group of exactly k digits: the k digit chars must be
followed by x or X (the pattern is compiled with IGNORECASE) and then by a
greedy run of 2 to 4 digits. -/
def matchAtWidth (cs : List Char) (k : ℕ) : Option (ℕ × ℕ) :=
  if k ≤ (cs.takeWhile Char.isDigit).length then
    match cs.drop k with
    | c :: rest =>
      if c = 'x' ∨ c = 'X' then
        let hs := rest.takeWhile Char.isDigit
        let hk := min hs.length 4
        if 2 ≤ hk then some (natOfDigits (cs.take k), natOfDigits (hs.take hk))
        else none
      else none
    | [] => none
  else none

/-- Greedy width group: 4 digits first, backtracking down to 2. -/
def matchWxHAt (cs : List Char) : Option (ℕ × ℕ) :=
  ((matchAtWidth cs 4).orElse fun _ =>
    (matchAtWidth cs 3).orElse fun _ => matchAtWidth cs 2)

/-- SIZE_REGEX.search (hunter.py lines 66-68): leftmost match of
(\d{2,4})x(\d{2,4}), case-insensitive.  \d is modelled by the ASCII digit
test, exact on ASCII input. -/
def searchWxH : List Char → Option (ℕ × ℕ)
  | [] => none
  | c :: cs => (matchWxHAt (c :: cs)).orElse fun _ => searchWxH cs

/-- LogoHunter._extract_dimensions (hunter.py lines 254-299).  The three
string arguments are the values of attributes.get("sizes", ""),
attributes.get("href", "") and attributes.get("content", ""), empty when
absent.  A sizes attribute (unless empty or "any", case-insensitive) is
split on spaces, the tokens stably sorted by descending area, and the
largest token parsed; a parse failure (ValueError, caught) falls through
to searching href-or-content for an embedded WxH pattern; otherwise the
result is (0, 0). -/
def extract_dimensions (sizes href content : String) : ℕ × ℕ :=
  let fromSizes : Option (ℕ × ℕ) :=
    if sizes ≠ "" ∧ lowerStr sizes ≠ "any" then
      match sortKeyDescStr size_key (pySplit sizes (fun c => c = ' ')) with
      | [] => none
      | best :: _ =>
        match splitXTimes best with
        | [a, b] =>
          let wd := a.toList.filter Char.isDigit
          let hd := b.toList.filter Char.isDigit
          if wd ≠ [] ∧ hd ≠ [] then some (natOfDigits wd, natOfDigits hd)
          else none
        | _ => none
    else none
  match fromSizes with
  | some wh => wh
  | none =>
    let hrefVal := if href ≠ "" then href else content
    if hrefVal ≠ "" then
      match searchWxH hrefVal.toList with
      | some wh => wh
      | none => (0, 0)
    else (0, 0)

/-- Symbolic trace of the external image codec (the spec treats decoding,
compositing, resizing and encoding as black boxes): a raster image is
either an arbitrary decoded source, a LANCZOS resize of another image, an
RGBA conversion, or a paste of an image onto an opaque white RGB
background, with maskAlpha recording whether the alpha channel was passed
as the compositing mask. -/
inductive Img where
  | source (id : ℕ) (mode : String) (w h : ℕ)
  | resized (base : Img) (w h : ℕ)
  | rgbaOf (base : Img)
  | pastedOnWhite (base : Img) (maskAlpha : Bool)
deriving DecidableEq, Repr

/-- The PIL mode of a traced image: resizing preserves mode,
convert("RGBA") yields RGBA, the white background is RGB. -/
def Img.mode : Img → String
  | .source _ m _ _ => m
  | .resized b _ _ => b.mode
  | .rgbaOf _ => "RGBA"
  | .pastedOnWhite _ _ => "RGB"

/-- Pixel width of a traced image. -/
def Img.width : Img → ℕ
  | .source _ _ w _ => w
  | .resized _ w _ => w
  | .rgbaOf b => b.width
  | .pastedOnWhite b _ => b.width

/-- Pixel height of a traced image. -/
def Img.height : Img → ℕ
  | .source _ _ _ h => h
  | .resized _ _ h => h
  | .rgbaOf b => b.height
  | .pastedOnWhite b _ => b.height

/-- Does needle occur as a contiguous run at the start of hay? -/
def startsWithChars : List Char → List Char → Bool
  | [], _ => true
  | _ :: _, [] => false
  | a :: as, b :: bs => a = b && startsWithChars as bs

/-- Does needle occur contiguously anywhere in hay? -/
def containsChars (needle : List Char) : List Char → Bool
  | [] => needle.isEmpty
  | b :: bs => startsWithChars needle (b :: bs) || containsChars needle bs

/-- Python "needle in hay" on strings. -/
def strContains (hay needle : String) : Bool :=
  containsChars needle.toList hay.toList

/-- The accepted content types of fetch_best_logo (hunter.py 759-767). -/
def validTypes : List String :=
  ["image/png", "image/svg+xml", "image/webp", "image/x-icon",
   "image/jpeg", "image/jpg", "image/gif"]

/-- A completed 2xx GET response as seen by fetch_and_validate: its
Content-Type header, its body decoded as UTF-8 text, and the result of
PIL Image.open on the body bytes (none when undecodable).  A failed fetch
or non-2xx status (raise_for_status) is modelled as Option.none at the
call site. -/
structure FetchedResponse where
  content_type : String
  bodyText : String
  rasterImage : Option Img
deriving DecidableEq, Repr

/-- The inner fetch_and_validate of LogoHunter.fetch_best_logo (hunter.py
lines 749-798): any exception yields None; a content type containing no
accepted type is rejected; an accepted content type containing "svg"
returns the decoded body text with priority 100000 without touching the
raster decoder; otherwise the decoded raster image is returned with its
pixel count. -/
def fetch_and_validate (resp : Option FetchedResponse) :
    Option ((String ⊕ Img) × ℤ) :=
  match resp with
  | none => none
  | some r =>
    if validTypes.any (fun t => strContains r.content_type t) then
      if strContains r.content_type "svg" then
        some (Sum.inl r.bodyText, 100000)
      else
        match r.rasterImage with
        | none => none
        | some img => some (Sum.inr img, (img.width * img.height : ℤ))
    else none

/-- The winner-selection walk of LogoHunter.fetch_best_logo (hunter.py
lines 800-812): try the pre-sorted urls in order, return the first
successfully validated content, None when every candidate fails.  The
list entry for each url is its fetched response. -/
def fetch_best_logo : List (Option FetchedResponse) → Option (String ⊕ Img)
  | [] => none
  | r :: rest =>
    match fetch_and_validate r with
    | some (content, _) => some content
    | none => fetch_best_logo rest

/-- Output of process_image: either the UTF-8 encoding of an SVG string or
the encoded bytes of a traced raster image in a given format. -/
inductive OutBytes where
  | utf8 (s : String)
  | rasterBytes (img : Img) (format : String)
deriving DecidableEq, Repr

/-- PIL image.save at the interface level: saving a mode that carries an
alpha channel or a palette as JPEG raises OSError (modelled as none);
every other combination encodes. -/
def imgSave (img : Img) (format : String) : Option OutBytes :=
  if format = "JPEG" ∧ img.mode ∈ ["RGBA", "P", "LA", "PA"] then none
  else some (.rasterBytes img format)

/-- LogoHunter.process_image (hunter.py lines 814-851): an SVG string is
returned as its UTF-8 bytes immediately; a raster image is optionally
resized, the output format is uppercased with JPG renamed to JPEG, and
RGBA or palette images headed for JPEG are pasted onto an opaque white RGB
background using the alpha channel as mask (palette images are converted
to RGBA first) before saving. -/
def process_image (image : String ⊕ Img) (output_format : String)
    (resize_to : Option (ℕ × ℕ)) : Option OutBytes :=
  match image with
  | .inl s => some (.utf8 s)
  | .inr img0 =>
    let img1 :=
      match resize_to with
      | some wh => Img.resized img0 wh.1 wh.2
      | none => img0
    let fmtU := upperStr output_format
    let save_format := if fmtU = "JPG" then "JPEG" else fmtU
    let img2 :=
      if save_format = "JPEG" ∧ (img1.mode = "RGBA" ∨ img1.mode = "P") then
        let imgc := if img1.mode = "P" then Img.rgbaOf img1 else img1
        Img.pastedOnWhite imgc (imgc.mode = "RGBA")
      else img1
    imgSave img2 save_format

/-- LogoHunter._validate_icon (hunter.py lines 584-620) on the decoded
image size and the icon format: reject aspect ratio beyond 2.0, then
longest side under 16, accept SVG, reject rasters beyond 2048x2048 pixels,
accept the rest. -/
def validate_icon (format : String) (width height : ℕ) : Bool :=
  if 0 < width ∧ 0 < height ∧
      2 < (max width height : ℚ) / (min width height : ℚ) then false
  else if max width height < 16 then false
  else if lowerStr format = "svg" then true
  else if 2048 * 2048 < width * height then false
  else true

-- ===== Theorems =====

/-- Foldl characterization of calculate_score from any accumulator. -/
theorem calculate_score_foldl (rules : List LoadedRule) (t : ℤ)
    (d : List (String × ℤ)) :
    rules.foldl
      (fun acc r =>
        let c := scoreContribution r.value r.result
        if c ≠ 0 then (acc.1 + c, acc.2 ++ [(r.label, c)]) else acc)
      (t, d) =
    (t + (rules.map (fun r => scoreContribution r.value r.result)).sum,
     d ++ (rules.map (fun r => (r.label, scoreContribution r.value r.result))).filter
            (fun p => p.2 ≠ 0)) := by
  induction rules generalizing t d with
  | nil => simp
  | cons r rs ih =>
      simp only [List.foldl_cons]
      by_cases h : scoreContribution r.value r.result = 0
      · rw [if_neg (by simp [h]), ih]
        simp [h]
      · rw [if_pos h, ih]
        simp only [List.map_cons, List.sum_cons, List.filter_cons]
        rw [if_pos (by simpa using h)]
        simp [List.append_assoc, add_assoc]

/-- calculate_score equals the sum of per-rule contributions together with
the in-order list of nonzero labelled contributions. -/
theorem calculate_score_eq (rules : List LoadedRule) :
    calculate_score rules =
      ((rules.map (fun r => scoreContribution r.value r.result)).sum,
       (rules.map (fun r => (r.label, scoreContribution r.value r.result))).filter
         (fun p => p.2 ≠ 0)) := by
  have h := calculate_score_foldl rules 0 []
  simpa [calculate_score] using h

/-- C1 counterexample: with weight 7 and a rule returning the numeric value
0.5, calculate_score contributes int(7 * 0.5) = 3, while the claimed
formula round(7 * 0.5) gives 4. -/
theorem C1_counterexample :
    calculate_score [⟨.num (1/2), "r", 7⟩] = (3, [("r", 3)]) ∧
    pyRound ((7 : ℚ) * (1/2)) = 4 ∧ (3 : ℤ) ≠ 4 := by
  have hfloor : ⌊(7 : ℚ) * (1/2)⌋ = 3 := by
    rw [Int.floor_eq_iff]
    norm_num
  have hc : scoreContribution 7 (.num (1/2)) = 3 := by
    simp only [scoreContribution, pyInt]
    rw [if_pos (by norm_num)]
    rw [show (((7 : ℤ) : ℚ) * (1/2)) = (7 : ℚ) * (1/2) by push_cast; ring]
    exact hfloor
  refine ⟨?_, ?_, by decide⟩
  · rw [calculate_score_eq]
    simp only [List.map_cons, List.map_nil, hc]
    decide
  · simp only [pyRound, hfloor]
    rw [if_pos (by push_cast; norm_num)]
    rw [if_neg (by decide)]
    norm_num

/-- C1 (amended): a boolean-true rule contributes exactly its weight, a
boolean-false or zero result contributes 0 and is omitted, a numeric value
v contributes int(weight * v) with Python int truncating toward zero (not
round), the total score is the sum of all contributions, and exactly the
nonzero contributions appear, in rule order, in the returned list. -/
theorem C1_contribution_formula :
    (∀ w : ℤ, scoreContribution w (.bool true) = w) ∧
    (∀ w : ℤ, scoreContribution w (.bool false) = 0) ∧
    (∀ (w : ℤ) (q : ℚ), scoreContribution w (.num q) = pyInt ((w : ℚ) * q)) ∧
    (∀ rules : List LoadedRule,
      (calculate_score rules).1 =
        (rules.map (fun r => scoreContribution r.value r.result)).sum ∧
      (calculate_score rules).2 =
        (rules.map (fun r => (r.label, scoreContribution r.value r.result))).filter
          (fun p => p.2 ≠ 0)) := by
  refine ⟨fun w => by simp [scoreContribution], fun w => by simp [scoreContribution],
    fun w q => rfl, fun rules => ?_⟩
  rw [calculate_score_eq]
  exact ⟨rfl, rfl⟩

/-- C4: an individual rule that raises is caught by the per-rule
try/except: it contributes 0, is omitted from the contribution list, and
the remaining rules are processed in order exactly as if the failing rule
were absent.  (The embedding of calculate_score is a total function: with
every rule outcome represented, including the raising one, the engine
itself never raises.) -/
theorem C4_rule_failure_isolated (pre post : List LoadedRule) (label : String)
    (value : ℤ) :
    calculate_score (pre ++ ⟨.exn, label, value⟩ :: post) =
      calculate_score (pre ++ post) := by
  simp [calculate_score_eq, scoreContribution]

/-- C4 witness: a failing rule between two boolean rules changes nothing. -/
theorem C4_witness :
    calculate_score [⟨.bool true, "a", 5⟩, ⟨.exn, "bad", 9⟩, ⟨.bool true, "b", 2⟩] =
      calculate_score [⟨.bool true, "a", 5⟩, ⟨.bool true, "b", 2⟩] :=
  C4_rule_failure_isolated [⟨.bool true, "a", 5⟩] [⟨.bool true, "b", 2⟩] "bad" 9

/-- C10: each dimension-based rule (very_small_images,
extremely_wide_aspect_ratio, social_media_dimensions, banner_dimensions,
odd_dimensions, apple_touch_icon_sizes) returns the zero sentinel whenever
width or height is 0, and the zero sentinel contributes nothing for any
weight, so unknown-dimension candidates get neither dimension bonuses nor
dimension penalties. -/
theorem C10_zero_dimension_sentinel (c : CandidateCtx)
    (h : c.width = 0 ∨ c.height = 0) :
    very_small_images c = .num 0 ∧
    extremely_wide_aspect_ratio c = .num 0 ∧
    social_media_dimensions c = .num 0 ∧
    banner_dimensions c = .num 0 ∧
    odd_dimensions c = .num 0 ∧
    apple_touch_icon_sizes c = .num 0 ∧
    (∀ w : ℤ, scoreContribution w (RuleResult.num 0) = 0) := by
  refine ⟨?_, ?_, ?_, ?_, ?_, ?_, fun w => by simp [scoreContribution, pyInt]⟩ <;>
    simp only [very_small_images, extremely_wide_aspect_ratio,
      social_media_dimensions, banner_dimensions, odd_dimensions,
      apple_touch_icon_sizes, if_pos h]

/-- C10 witness: a candidate with width 0 and height 50 gets the zero
sentinel from very_small_images. -/
theorem C10_witness :
    very_small_images ⟨false, 0, 50, "", "", "", "", [], ""⟩ = .num 0 :=
  (C10_zero_dimension_sentinel ⟨false, 0, 50, "", "", "", "", [], ""⟩
    (Or.inl rfl)).1

/-- Unfolding the sort one step. -/
theorem sortByScoreDesc_cons (x : Icon) (xs : List Icon) :
    sortByScoreDesc (x :: xs) =
      insertKeyDesc (fun i => i.score) x (sortByScoreDesc xs) := rfl

/-- insertKeyDesc splits the list at the first element whose key is not
greater than the inserted key. -/
theorem insertKeyDesc_eq (key : Icon → ℤ) (x : Icon) (l : List Icon) :
    insertKeyDesc key x l =
      l.takeWhile (fun y => decide (key x < key y)) ++
        x :: l.dropWhile (fun y => decide (key x < key y)) := by
  induction l with
  | nil => rfl
  | cons y ys ih =>
      by_cases h : key y ≤ key x
      · simp [insertKeyDesc, h, List.takeWhile_cons, List.dropWhile_cons,
          not_lt.mpr h]
      · simp [insertKeyDesc, h, List.takeWhile_cons, List.dropWhile_cons,
          not_le.mp h, ih]

/-- Inserting is a permutation with consing. -/
theorem perm_insertKeyDesc (key : Icon → ℤ) (x : Icon) (l : List Icon) :
    List.Perm (insertKeyDesc key x l) (x :: l) := by
  rw [insertKeyDesc_eq]
  refine List.Perm.trans List.perm_middle ?_
  rw [List.takeWhile_append_dropWhile]

/-- Sorting is a permutation. -/
theorem perm_sortByScoreDesc (l : List Icon) :
    List.Perm (sortByScoreDesc l) l := by
  induction l with
  | nil => exact List.Perm.refl _
  | cons x xs ih =>
      rw [sortByScoreDesc_cons]
      exact List.Perm.trans (perm_insertKeyDesc _ x (sortByScoreDesc xs))
        (List.Perm.cons x ih)

/-- Inserting into a non-increasing list keeps it non-increasing. -/
theorem pairwise_insertKeyDesc (key : Icon → ℤ) (x : Icon) (l : List Icon)
    (h : l.Pairwise (fun a b => key b ≤ key a)) :
    (insertKeyDesc key x l).Pairwise (fun a b => key b ≤ key a) := by
  induction l with
  | nil => simp [insertKeyDesc]
  | cons y ys ih =>
      rcases List.pairwise_cons.mp h with ⟨hy, hys⟩
      by_cases hxy : key y ≤ key x
      · simp only [insertKeyDesc, if_pos hxy]
        refine List.Pairwise.cons ?_ h
        intro b hb
        rcases List.mem_cons.mp hb with hbx | hb'
        · rw [hbx]; exact hxy
        · exact le_trans (hy b hb') hxy
      · simp only [insertKeyDesc, if_neg hxy]
        refine List.Pairwise.cons ?_ (ih hys)
        intro b hb
        rcases List.mem_cons.mp ((perm_insertKeyDesc key x ys).subset hb)
          with hbx | hb'
        · rw [hbx]; exact le_of_lt (not_le.mp hxy)
        · exact hy b hb'

/-- The sorted output is non-increasing in score. -/
theorem pairwise_sortByScoreDesc (l : List Icon) :
    (sortByScoreDesc l).Pairwise (fun a b => b.score ≤ a.score) := by
  induction l with
  | nil => simp [sortByScoreDesc]
  | cons x xs ih =>
      rw [sortByScoreDesc_cons]
      exact pairwise_insertKeyDesc _ x (sortByScoreDesc xs) ih

/-- Inserting does not disturb the subsequence of any fixed key value. -/
theorem filter_insertKeyDesc (key : Icon → ℤ) (x : Icon) (l : List Icon)
    (s : ℤ) :
    (insertKeyDesc key x l).filter (fun y => decide (key y = s)) =
      (x :: l).filter (fun y => decide (key y = s)) := by
  have hl : (l.takeWhile (fun y => decide (key x < key y))).filter
        (fun y => decide (key y = s)) ++
      (l.dropWhile (fun y => decide (key x < key y))).filter
        (fun y => decide (key y = s)) =
      l.filter (fun y => decide (key y = s)) := by
    rw [← List.filter_append, List.takeWhile_append_dropWhile]
  rw [insertKeyDesc_eq, List.filter_append, List.filter_cons,
    List.filter_cons]
  by_cases hxs : key x = s
  · have htw : (l.takeWhile (fun y => decide (key x < key y))).filter
        (fun y => decide (key y = s)) = [] := by
      rw [List.filter_eq_nil_iff]
      intro a ha
      have h2 := List.mem_takeWhile_imp ha
      simp only [decide_eq_true_eq] at h2 ⊢
      omega
    rw [if_pos (by simp [hxs]), if_pos (by simp [hxs]), htw]
    rw [htw, List.nil_append] at hl
    rw [List.nil_append, hl]
  · rw [if_neg (by simp [hxs]), if_neg (by simp [hxs]), hl]

/-- The sort is stable: the subsequence at any fixed score is untouched. -/
theorem filter_sortByScoreDesc (l : List Icon) (s : ℤ) :
    (sortByScoreDesc l).filter (fun y => decide (y.score = s)) =
      l.filter (fun y => decide (y.score = s)) := by
  induction l with
  | nil => rfl
  | cons x xs ih =>
      rw [sortByScoreDesc_cons,
        filter_insertKeyDesc (fun i => i.score) x (sortByScoreDesc xs) s,
        List.filter_cons, List.filter_cons, ih]

/-- Folding from the right end: deduplicating l ++ [x] is one dictInsert
into the deduplication of l. -/
theorem dedupByUrl_append_single (l : List Icon) (x : Icon) :
    dedupByUrl (l ++ [x]) = dictInsert (dedupByUrl l) x := by
  simp [dedupByUrl, List.foldl_append]

/-- Replacing the value at an existing key never changes any url. -/
theorem url_dictReplace (x y : Icon) :
    (if y.url = x.url then x else y).url = y.url := by
  by_cases h : y.url = x.url
  · rw [if_pos h, h]
  · rw [if_neg h]

/-- An element named by getLast? is a member. -/
theorem mem_of_getLast?_eq {α : Type} {l : List α} {a : α}
    (h : l.getLast? = some a) : a ∈ l := by
  obtain ⟨hne, heq⟩ := List.mem_getLast?_eq_getLast (Option.mem_def.mpr h)
  rw [heq]
  exact List.getLast_mem hne

/-- For every url value, deduplication keeps exactly the last candidate
discovered with that url (and none when the url never occurs). -/
theorem filter_dedupByUrl (l : List Icon) (u : String) :
    (dedupByUrl l).filter (fun y => decide (y.url = u)) =
      ((l.filter (fun y => decide (y.url = u))).getLast?).toList := by
  induction l using List.reverseRecOn with
  | nil => rfl
  | append_singleton l x ih =>
      rw [dedupByUrl_append_single]
      unfold dictInsert
      by_cases hx : x.url = u
      · have hfx : (l ++ [x]).filter (fun y => decide (y.url = u)) =
            l.filter (fun y => decide (y.url = u)) ++ [x] := by
          rw [List.filter_append]
          simp [hx]
        rw [hfx, List.getLast?_concat]
        by_cases hany :
            (dedupByUrl l).any (fun y => decide (y.url = x.url)) = true
        · rw [if_pos hany, List.filter_map]
          have hcong : (dedupByUrl l).filter
                ((fun z => decide (z.url = u)) ∘
                  fun y => if y.url = x.url then x else y) =
              (dedupByUrl l).filter (fun y => decide (y.url = u)) := by
            apply List.filter_congr
            intro y _
            simp only [Function.comp_apply]
            rw [url_dictReplace]
          rw [hcong, ih]
          obtain ⟨w, hw, hwu⟩ := List.any_eq_true.mp hany
          have hwmem : w ∈ (l.filter (fun y => decide (y.url = u))).getLast?.toList := by
            rw [← ih]
            refine List.mem_filter.mpr ⟨hw, ?_⟩
            simp only [decide_eq_true_eq] at hwu ⊢
            rw [hwu, hx]
          cases hlast : (l.filter (fun y => decide (y.url = u))).getLast? with
          | none => rw [hlast] at hwmem; cases hwmem
          | some w' =>
              have hw'u : w'.url = u := by
                have hmem := mem_of_getLast?_eq hlast
                simpa using (List.mem_filter.mp hmem).2
              simp only [Option.toList_some, List.map_cons, List.map_nil]
              rw [if_pos (by rw [hw'u, hx])]
        · rw [if_neg hany, List.filter_append]
          have hnil : (dedupByUrl l).filter (fun y => decide (y.url = u)) = [] := by
            rw [List.filter_eq_nil_iff]
            intro a ha hc
            apply hany
            refine List.any_eq_true.mpr ⟨a, ha, ?_⟩
            simp only [decide_eq_true_eq] at hc ⊢
            rw [hc, hx]
          rw [hnil, List.nil_append]
          simp [hx]
      · have hfx : (l ++ [x]).filter (fun y => decide (y.url = u)) =
            l.filter (fun y => decide (y.url = u)) := by
          rw [List.filter_append]
          simp [hx]
        rw [hfx]
        by_cases hany :
            (dedupByUrl l).any (fun y => decide (y.url = x.url)) = true
        · rw [if_pos hany, List.filter_map]
          have hcong : (dedupByUrl l).filter
                ((fun z => decide (z.url = u)) ∘
                  fun y => if y.url = x.url then x else y) =
              (dedupByUrl l).filter (fun y => decide (y.url = u)) := by
            apply List.filter_congr
            intro y _
            simp only [Function.comp_apply]
            rw [url_dictReplace]
          rw [hcong, ih]
          cases hlast : (l.filter (fun y => decide (y.url = u))).getLast? with
          | none => rfl
          | some w' =>
              have hw'u : w'.url = u := by
                have hmem := mem_of_getLast?_eq hlast
                simpa using (List.mem_filter.mp hmem).2
              simp only [Option.toList_some, List.map_cons, List.map_nil]
              rw [if_neg]
              rw [hw'u]
              intro hc
              exact hx hc.symm
        · rw [if_neg hany, List.filter_append]
          simp [hx, ih]

/-- Deduplicated candidates have pairwise distinct urls. -/
theorem nodup_urls_dedup (l : List Icon) :
    ((dedupByUrl l).map (fun i => i.url)).Nodup := by
  induction l using List.reverseRecOn with
  | nil => simp [dedupByUrl]
  | append_singleton l x ih =>
      rw [dedupByUrl_append_single]
      unfold dictInsert
      by_cases hany :
          (dedupByUrl l).any (fun y => decide (y.url = x.url)) = true
      · rw [if_pos hany, List.map_map]
        have hsame : (dedupByUrl l).map
              ((fun i => i.url) ∘ fun y => if y.url = x.url then x else y) =
            (dedupByUrl l).map (fun i => i.url) := by
          apply List.map_congr_left
          intro y _
          simp only [Function.comp_apply]
          exact url_dictReplace x y
        rw [hsame]
        exact ih
      · rw [if_neg hany, List.map_append]
        have hnot : x.url ∉ (dedupByUrl l).map (fun i => i.url) := by
          intro hmem
          obtain ⟨y, hy, hyurl⟩ := List.mem_map.mp hmem
          exact hany (List.any_eq_true.mpr ⟨y, hy, by simp [hyurl]⟩)
        simp [List.nodup_append, ih, hnot]

/-- C3: deduplication keyed by url leaves exactly one entry per distinct
url value (the urls of the result are pairwise distinct), and the entry
kept for each url is the last-discovered candidate with that url, so the
later metadata wins. -/
theorem C3_dedup_last_write_wins (l : List Icon) (u : String) :
    (dedupByUrl l).filter (fun y => decide (y.url = u)) =
      ((l.filter (fun y => decide (y.url = u))).getLast?).toList ∧
    ((dedupByUrl l).map (fun i => i.url)).Nodup :=
  ⟨filter_dedupByUrl l u, nodup_urls_dedup l⟩

/-- C2: find_logo_urls returns the urls of the scored candidates sorted so
that scores are non-increasing, the sort is stable (the subsequence of any
fixed score equals the extraction-then-dedup order), and concretely a
candidate scored 150 precedes one scored 90. -/
theorem C2_ranking_sorted_and_stable
    (scoreOf : Icon → ℤ × List (String × ℤ)) (all_icons : List Icon) :
    (find_logo_urls scoreOf all_icons =
      (sortByScoreDesc ((dedupByUrl all_icons).map (rescoreIcon scoreOf))).map
        (fun i => i.url)) ∧
    (sortByScoreDesc
        ((dedupByUrl all_icons).map (rescoreIcon scoreOf))).Pairwise
      (fun a b => b.score ≤ a.score) ∧
    (∀ s : ℤ,
      (sortByScoreDesc
          ((dedupByUrl all_icons).map (rescoreIcon scoreOf))).filter
          (fun y => decide (y.score = s)) =
        ((dedupByUrl all_icons).map (rescoreIcon scoreOf)).filter
          (fun y => decide (y.score = s))) ∧
    sortByScoreDesc
        [{ url := "https://a.example/low.png", width := 0, height := 0,
           format := "png", score := 90 },
         { url := "https://a.example/high.png", width := 0, height := 0,
           format := "png", score := 150 }] =
      [{ url := "https://a.example/high.png", width := 0, height := 0,
         format := "png", score := 150 },
       { url := "https://a.example/low.png", width := 0, height := 0,
         format := "png", score := 90 }] := by
  refine ⟨rfl, pairwise_sortByScoreDesc _, fun s => filter_sortByScoreDesc _ s,
    by decide⟩

/-- C9: the url list returned by find_logo_urls has no duplicates, because
scoring and ranking operate on the url-deduplicated candidate set and
preserve one entry per url. -/
theorem C9_output_urls_nodup (scoreOf : Icon → ℤ × List (String × ℤ))
    (all_icons : List Icon) : (find_logo_urls scoreOf all_icons).Nodup := by
  unfold find_logo_urls
  have hperm : List.Perm
      ((sortByScoreDesc
          ((dedupByUrl all_icons).map (rescoreIcon scoreOf))).map
        (fun i => i.url))
      (((dedupByUrl all_icons).map (rescoreIcon scoreOf)).map
        (fun i => i.url)) :=
    (perm_sortByScoreDesc _).map _
  rw [hperm.nodup_iff, List.map_map]
  have hcomp : ((fun i : Icon => i.url) ∘ rescoreIcon scoreOf) =
      fun i : Icon => i.url := rfl
  rw [hcomp]
  exact nodup_urls_dedup all_icons

/-- Insertion grows the token list by one. -/
theorem length_insertKeyDescStr (key : String → ℕ) (x : String)
    (l : List String) :
    (insertKeyDescStr key x l).length = l.length + 1 := by
  induction l with
  | nil => rfl
  | cons y ys ih =>
      unfold insertKeyDescStr
      by_cases h : key y ≤ key x
      · rw [if_pos h]
        simp
      · rw [if_neg h]
        simp [ih]

/-- Sorting preserves the token count. -/
theorem length_sortKeyDescStr (key : String → ℕ) (l : List String) :
    (sortKeyDescStr key l).length = l.length := by
  induction l with
  | nil => rfl
  | cons x xs ih =>
      show (insertKeyDescStr key x (sortKeyDescStr key xs)).length = xs.length + 1
      rw [length_insertKeyDescStr, ih]

/-- The head of the reverse-sorted token list has maximal key: the largest
area token wins. -/
theorem sortKeyDescStr_head_ge (key : String → ℕ) :
    ∀ (l : List String) (b : String) (rest : List String),
      sortKeyDescStr key l = b :: rest → ∀ t ∈ l, key t ≤ key b := by
  intro l
  induction l with
  | nil =>
      intro b rest _ t ht
      exact absurd ht (List.not_mem_nil t)
  | cons a l ih =>
      intro b rest h t ht
      have hcons : insertKeyDescStr key a (sortKeyDescStr key l) = b :: rest := h
      cases hs : sortKeyDescStr key l with
      | nil =>
          have hl : l = [] := by
            have := length_sortKeyDescStr key l
            rw [hs] at this
            exact List.length_eq_zero.mp this.symm
          rw [hs] at hcons
          have hba : b = a := by
            have : [a] = b :: rest := hcons
            exact (List.cons.injEq a [] b rest).mp this |>.1 |>.symm
          rcases List.mem_cons.mp ht with hta | htl
          · rw [hta, hba]
          · rw [hl] at htl
            exact absurd htl (List.not_mem_nil t)
      | cons y ys =>
          have hyl : ∀ t ∈ l, key t ≤ key y := ih y ys hs
          rw [hs] at hcons
          unfold insertKeyDescStr at hcons
          by_cases hc : key y ≤ key a
          · rw [if_pos hc] at hcons
            have hba : b = a := ((List.cons.injEq a (y :: ys) b rest).mp hcons).1.symm
            rcases List.mem_cons.mp ht with hta | htl
            · rw [hta, hba]
            · rw [hba]
              exact le_trans (hyl t htl) hc
          · rw [if_neg hc] at hcons
            have hby : b = y := ((List.cons.injEq y _ b rest).mp hcons).1.symm
            rcases List.mem_cons.mp ht with hta | htl
            · rw [hta, hby]
              exact le_of_lt (not_le.mp hc)
            · rw [hby]
              exact hyl t htl

/-- C5: the sizes attribute "192x192 96x96 48x48" yields (192,192); with
no sizes attribute the href "/favicon-256x256.png" yields (256,256)
through the embedded 2-to-4-digit WxH pattern; with neither source the
result is (0,0); and in general the token the sizes branch selects is one
of maximal width times height product. -/
theorem C5_dimension_extraction :
    extract_dimensions "192x192 96x96 48x48" "" "" = (192, 192) ∧
    extract_dimensions "" "/favicon-256x256.png" "" = (256, 256) ∧
    extract_dimensions "" "" "" = (0, 0) ∧
    (∀ (sizes b : String) (rest : List String),
      sortKeyDescStr size_key (pySplit sizes (fun c => c = ' ')) = b :: rest →
      ∀ t ∈ pySplit sizes (fun c => c = ' '), size_key t ≤ size_key b) := by
  refine ⟨by decide, by decide, by decide, ?_⟩
  intro sizes b rest h t ht
  exact sortKeyDescStr_head_ge size_key _ b rest h t ht

/-- C5 witness: on "192x192 96x96" the selected head token is "192x192"
and it dominates the token "96x96". -/
theorem C5_witness : size_key "96x96" ≤ size_key "192x192" :=
  C5_dimension_extraction.2.2.2 "192x192 96x96" "192x192" ["96x96"]
    (by decide) "96x96" (by decide)

/-- C8: icon validation rejects any image whose longest side is under 16
pixels and any image whose long-to-short side ratio exceeds 2; concretely
10x10 and 600x100 fail while a 200x200 png passes. -/
theorem C8_icon_validation :
    (∀ (fmt : String) (w h : ℕ), max w h < 16 →
      validate_icon fmt w h = false) ∧
    (∀ (fmt : String) (w h : ℕ), 0 < w → 0 < h →
      2 < (max w h : ℚ) / (min w h : ℚ) → validate_icon fmt w h = false) ∧
    validate_icon "png" 10 10 = false ∧
    validate_icon "png" 600 100 = false ∧
    validate_icon "png" 200 200 = true := by
  refine ⟨?_, ?_, ?_, ?_, ?_⟩
  · intro fmt w h hlt
    unfold validate_icon
    by_cases h1 : 0 < w ∧ 0 < h ∧ 2 < (max w h : ℚ) / (min w h : ℚ)
    · rw [if_pos h1]
    · rw [if_neg h1, if_pos hlt]
  · intro fmt w h hw hh hr
    unfold validate_icon
    rw [if_pos ⟨hw, hh, hr⟩]
  · unfold validate_icon
    norm_num
  · unfold validate_icon
    norm_num
  · unfold validate_icon
    norm_num [(by decide : lowerStr "png" = "png")]

/-- C8 witness: a 3x3 image fails the minimum size check. -/
theorem C8_witness : validate_icon "png" 3 3 = false :=
  C8_icon_validation.1 "png" 3 3 (by decide)

/-- C6 counterexample: the content type "image/svg" contains "svg" but
matches no accepted type, so the fetched candidate is rejected (None, not
a decoded-text winner) and the walk moves on to the next url, returning
its raster image instead. -/
theorem C6_counterexample :
    strContains "image/svg" "svg" = true ∧
    fetch_and_validate
        (some ⟨"image/svg", "<svg/>", some (Img.source 0 "RGB" 8 8)⟩) =
      none ∧
    (none : Option ((String ⊕ Img) × ℤ)) ≠
      some (Sum.inl "<svg/>", 100000) ∧
    fetch_best_logo
        [some ⟨"image/svg", "<svg/>", some (Img.source 0 "RGB" 8 8)⟩,
         some ⟨"image/png", "", some (Img.source 1 "RGB" 64 64)⟩] =
      some (Sum.inr (Img.source 1 "RGB" 64 64)) := by
  refine ⟨by decide, by decide, by decide, by decide⟩

/-- C6 (amended): during best-logo materialization, a fetched candidate
whose content type matches an accepted image type and contains "svg" is
returned immediately as the winner with its body decoded as UTF-8 text —
for every possible state of the raster decoder, so raster decoding is
never attempted and no size comparison happens; a candidate whose content
type matches no accepted type is rejected (None) and the walk continues
with the next url; a validated candidate ends the walk as the winner. -/
theorem C6_svg_short_circuit :
    (∀ r : FetchedResponse,
      validTypes.any (fun t => strContains r.content_type t) = true →
      strContains r.content_type "svg" = true →
      fetch_and_validate (some r) = some (Sum.inl r.bodyText, 100000)) ∧
    (∀ r : FetchedResponse,
      validTypes.any (fun t => strContains r.content_type t) = false →
      fetch_and_validate (some r) = none) ∧
    (∀ (r : Option FetchedResponse) (rest : List (Option FetchedResponse)),
      fetch_and_validate r = none →
      fetch_best_logo (r :: rest) = fetch_best_logo rest) ∧
    (∀ (r : Option FetchedResponse) (rest : List (Option FetchedResponse))
      (content : String ⊕ Img) (p : ℤ),
      fetch_and_validate r = some (content, p) →
      fetch_best_logo (r :: rest) = some content) := by
  have hstepV : ∀ r : FetchedResponse, fetch_and_validate (some r) =
      if validTypes.any (fun t => strContains r.content_type t) then
        if strContains r.content_type "svg" then
          some (Sum.inl r.bodyText, 100000)
        else
          match r.rasterImage with
          | none => none
          | some img => some (Sum.inr img, (img.width * img.height : ℤ))
      else none := fun r => rfl
  have hstepW : ∀ (r : Option FetchedResponse)
      (rest : List (Option FetchedResponse)),
      fetch_best_logo (r :: rest) =
        match fetch_and_validate r with
        | some (content, _) => some content
        | none => fetch_best_logo rest := fun r rest => rfl
  refine ⟨?_, ?_, ?_, ?_⟩
  · intro r hvalid hsvg
    rw [hstepV r, if_pos hvalid, if_pos hsvg]
  · intro r hvalid
    rw [hstepV r, if_neg (by rw [hvalid]; exact Bool.false_ne_true)]
  · intro r rest hnone
    rw [hstepW r rest, hnone]
  · intro r rest content p hsome
    rw [hstepW r rest, hsome]

/-- C6 witness: an accepted SVG response wins as decoded text even with
the raster decoder yielding nothing. -/
theorem C6_witness :
    fetch_and_validate (some ⟨"image/svg+xml", "<svg/>", none⟩) =
      some (Sum.inl "<svg/>", 100000) :=
  C6_svg_short_circuit.1 ⟨"image/svg+xml", "<svg/>", none⟩
    (by decide) (by decide)

/-- The flatten-then-save core of process_image: an RGBA or palette image
headed for JPEG is pasted onto the white background with the alpha channel
as mask and then saves successfully. -/
theorem flatten_save (i1 : Img) (h : i1.mode = "RGBA" ∨ i1.mode = "P") :
    ∃ base : Img,
      imgSave
          (Img.pastedOnWhite (if i1.mode = "P" then Img.rgbaOf i1 else i1)
            ((if i1.mode = "P" then Img.rgbaOf i1 else i1).mode = "RGBA"))
          "JPEG" =
        some (OutBytes.rasterBytes (Img.pastedOnWhite base true) "JPEG") := by
  have hsave : ∀ b : Img,
      imgSave (Img.pastedOnWhite b true) "JPEG" =
        some (OutBytes.rasterBytes (Img.pastedOnWhite b true) "JPEG") := by
    intro b
    unfold imgSave
    rw [if_neg]
    rintro ⟨-, hmem⟩
    have hmode : (Img.pastedOnWhite b true).mode = "RGB" := rfl
    rw [hmode] at hmem
    exact absurd hmem (by decide)
  rcases h with hA | hP
  · refine ⟨i1, ?_⟩
    have hne : ¬ i1.mode = "P" := by rw [hA]; decide
    rw [if_neg hne, decide_eq_true hA]
    exact hsave i1
  · refine ⟨Img.rgbaOf i1, ?_⟩
    have hmode2 : (Img.rgbaOf i1).mode = "RGBA" := rfl
    rw [if_pos hP, decide_eq_true hmode2]
    exact hsave (Img.rgbaOf i1)

/-- C7: process_image returns the UTF-8 bytes of an SVG string unchanged
for every output format and resize target; and an RGBA or palette raster
headed for a JPEG-like output format is flattened onto an opaque white
background with the alpha channel as compositing mask, so saving succeeds
and the encoded image has mode RGB, with no alpha channel. -/
theorem C7_process_image :
    (∀ (s fmt : String) (rt : Option (ℕ × ℕ)),
      process_image (Sum.inl s) fmt rt = some (OutBytes.utf8 s)) ∧
    (∀ (img : Img) (fmt : String) (rt : Option (ℕ × ℕ)),
      img.mode = "RGBA" ∨ img.mode = "P" →
      (if upperStr fmt = "JPG" then "JPEG" else upperStr fmt) = "JPEG" →
      ∃ base : Img,
        process_image (Sum.inr img) fmt rt =
          some (OutBytes.rasterBytes (Img.pastedOnWhite base true) "JPEG") ∧
        (Img.pastedOnWhite base true).mode = "RGB") := by
  have hstep : ∀ (img0 : Img) (fmt : String) (rt : Option (ℕ × ℕ)),
      process_image (Sum.inr img0) fmt rt =
        (fun img1 =>
          (fun save_format =>
            imgSave
              (if save_format = "JPEG" ∧
                  (img1.mode = "RGBA" ∨ img1.mode = "P") then
                Img.pastedOnWhite
                  (if img1.mode = "P" then Img.rgbaOf img1 else img1)
                  ((if img1.mode = "P" then Img.rgbaOf img1 else img1).mode
                    = "RGBA")
              else img1) save_format)
          (if upperStr fmt = "JPG" then "JPEG" else upperStr fmt))
        (match rt with
          | some wh => Img.resized img0 wh.1 wh.2
          | none => img0) := fun img0 fmt rt => rfl
  refine ⟨fun s fmt rt => rfl, ?_⟩
  intro img fmt rt hmode hfmt
  cases rt with
  | none =>
      obtain ⟨base, hb⟩ := flatten_save img hmode
      refine ⟨base, ?_, rfl⟩
      rw [hstep img fmt none]
      simp only []
      rw [hfmt, if_pos ⟨rfl, hmode⟩]
      exact hb
  | some wh =>
      have hmode1 : (Img.resized img wh.1 wh.2).mode = "RGBA" ∨
          (Img.resized img wh.1 wh.2).mode = "P" := hmode
      obtain ⟨base, hb⟩ := flatten_save (Img.resized img wh.1 wh.2) hmode1
      refine ⟨base, ?_, rfl⟩
      rw [hstep img fmt (some wh)]
      simp only []
      rw [hfmt, if_pos ⟨rfl, hmode1⟩]
      exact hb

/-- C7 witness: an RGBA source encoded as jpg flattens and saves. -/
theorem C7_witness :
    ∃ base : Img,
      process_image (Sum.inr (Img.source 0 "RGBA" 10 10)) "jpg" none =
        some (OutBytes.rasterBytes (Img.pastedOnWhite base true) "JPEG") ∧
      (Img.pastedOnWhite base true).mode = "RGB" :=
  C7_process_image.2 (Img.source 0 "RGBA" 10 10) "jpg" none (Or.inl rfl)
    (by decide)
